import Mathlib

/-!
Verification of the account-fetching and program-loading pipeline of the
mollusk-on-demand crate (src/lib.rs), as a shallow embedding in Lean 4.

The embedding models:
- `validate_elf` (structural ELF-header validation),
- `RpcError` (the error taxonomy),
- `RpcAccountStore` with its cache (a key-unique association list standing
  in for the HashMap), configuration flags, and its operations
  `fetch_accounts`, `from_instructions` and `add_programs`,
- the Fixture Codec, which is described in the specification but absent
  from the sources, modelled from the spec.

The network collaborator (getMultipleAccounts) is modelled as a function
from pubkeys to optional accounts; the Mollusk execution registry is
modelled as the list of `(address, bytecode, owner)` registrations made.
-/

set_option autoImplicit false

namespace MolluskOnDemand

/-- An address: conceptually a fixed 32-byte identifier. We model it as a
list of byte values; a valid address has length 32. -/
abbrev Pubkey := List Nat

/-- Model of `Pubkey::try_from(&[u8])`: succeeds exactly when the slice has
length 32. -/
def pubkeyTryFrom (bytes : List Nat) : Option Pubkey :=
  if bytes.length = 32 then some bytes else none

/-- The all-zero default pubkey (`Pubkey::default()`). -/
def defaultPubkey : Pubkey := List.replicate 32 0

/-- Stand-in for the BPF Loader v2 well-known constant
(`mollusk_svm::program::loader_keys::LOADER_V2`): a fixed 32-byte address,
distinct from the v3 constant. -/
def LOADER_V2 : Pubkey := List.replicate 31 0 ++ [2]

/-- Stand-in for the BPF Loader v3 well-known constant
(`mollusk_svm::program::loader_keys::LOADER_V3`): a fixed 32-byte address,
distinct from the v2 constant. -/
def LOADER_V3 : Pubkey := List.replicate 31 0 ++ [3]

/-- Model of `solana_account::Account`. -/
structure Account where
  lamports : Nat
  data : List Nat
  owner : Pubkey
  executable : Bool
  rent_epoch : Nat
deriving Repr, DecidableEq

/-- Model of `Account::default()`: zero balance, empty data, default owner,
non-executable, zero epoch. -/
def defaultAccount : Account :=
  { lamports := 0, data := [], owner := defaultPubkey,
    executable := false, rent_epoch := 0 }

/-- The account cache: `HashMap<Pubkey, Account>` modelled as an
association list with unique keys (iteration order of the HashMap is
unspecified, so any deterministic order is a faithful model). -/
abbrev Cache := List (Pubkey × Account)

/-- First-match lookup in the cache (`HashMap::get`). -/
def lookupAcct : Cache → Pubkey → Option Account
  | [], _ => none
  | (q, a) :: rest, p => if q = p then some a else lookupAcct rest p

/-- `HashMap::contains_key`. -/
def containsKey (cache : Cache) (p : Pubkey) : Bool :=
  (lookupAcct cache p).isSome

/-- Removal of every binding of a key from the cache. -/
def eraseKey : Cache → Pubkey → Cache
  | [], _ => []
  | (q, a) :: rest, p => if q = p then eraseKey rest p else (q, a) :: eraseKey rest p

/-- `HashMap::insert` (overwrite semantics): any previous binding of the
key is removed and the new binding appended. -/
def insertAcct (cache : Cache) (p : Pubkey) (a : Account) : Cache :=
  eraseKey cache p ++ [(p, a)]

/-- Model of the `RpcError` enum (the `Client` transport variant is an
external collaborator failure and is not modelled; the network collaborator
is a total function here). -/
inductive RpcError where
  | accountNotFound (pubkey : Pubkey)
  | invalidProgramData (program : Pubkey) (reason : String)
  | malformedProgram (program : Pubkey) (reason : String)
deriving Repr, DecidableEq

/-- ELF magic number: 0x7F, E, L, F. -/
def ELF_MAGIC : List Nat := [0x7F, 0x45, 0x4C, 0x46]

/-- Model of `validate_elf`: minimum length 52, correct 4-byte magic, and
class byte (offset 4) equal to 1 or 2. -/
def validateElf (data : List Nat) : Except String Unit :=
  if data.length < 52 then
    Except.error "Data too small to be a valid ELF file"
  else if data.take 4 ≠ ELF_MAGIC then
    Except.error "Invalid ELF magic number"
  else if data.getD 4 0 ≠ 1 ∧ data.getD 4 0 ≠ 2 then
    Except.error "Invalid ELF class"
  else
    Except.ok ()

/-- Model of `RpcAccountStore` (minus the RPC client handle, which is the
external network collaborator, passed separately as a function). -/
structure Store where
  cache : Cache
  allow_missing_accounts : Bool
  validate_programs : Bool
deriving Repr, DecidableEq

/-- Model of `RpcAccountStore::new_with_commitment`: empty cache, strict
missing-account policy, validation on. -/
def newStore : Store :=
  { cache := [], allow_missing_accounts := false, validate_programs := true }

/-- The network collaborator: `getMultipleAccounts` modelled pointwise as a
function from a pubkey to an optional account record. -/
abbrev Network := Pubkey → Option Account

/-- The result of a fetch: the updated store, the number of network
round-trips issued (0 or 1), and the error that aborted the batch, if
any. Partial cache updates made before the error are kept, as in the
source (the loop mutates `self.cache` before returning `Err`). -/
structure FetchResult where
  store : Store
  netCalls : Nat
  err : Option RpcError
deriving Repr, DecidableEq

/-- The per-result loop body of `fetch_accounts`: for each
`(pubkey, account_opt)` pair, `Some` is inserted; `None` inserts a default
account in permissive mode and aborts with `AccountNotFound` in strict
mode. -/
def processFetched (allow : Bool) (cache : Cache) :
    List (Pubkey × Option Account) → Cache × Option RpcError
  | [] => (cache, none)
  | (p, some a) :: rest => processFetched allow (insertAcct cache p a) rest
  | (p, none) :: rest =>
    if allow then processFetched allow (insertAcct cache p defaultAccount) rest
    else (cache, some (RpcError.accountNotFound p))

/-- Model of `RpcAccountStore::fetch_accounts`: filter out cached keys; if
nothing is missing succeed with zero network calls; otherwise issue exactly
one batched round-trip and merge the results. -/
def fetchAccounts (net : Network) (store : Store) (pubkeys : List Pubkey) :
    FetchResult :=
  let missing := pubkeys.filter (fun p => !containsKey store.cache p)
  if missing.isEmpty then
    { store := store, netCalls := 0, err := none }
  else
    let results := missing.map (fun p => (p, net p))
    let pr := processFetched store.allow_missing_accounts store.cache results
    { store := { store with cache := pr.1 }, netCalls := 1, err := pr.2 }

/-- Model of `solana_instruction`: an account meta carries a pubkey. -/
structure AccountMeta where
  pubkey : Pubkey
deriving Repr, DecidableEq

/-- Model of an instruction: the list of referenced account metas. -/
structure Instruction where
  accounts : List AccountMeta
deriving Repr, DecidableEq

/-- The pubkey set built by `from_instructions`: the union over all
instructions of the referenced pubkeys, deduplicated through a set
(`HashSet`), modelled as `List.dedup`. -/
def instructionPubkeys (ixs : List Instruction) : List Pubkey :=
  ((ixs.map (fun ix => ix.accounts.map (fun m => m.pubkey))).flatten).dedup

/-- Model of `RpcAccountStore::from_instructions`. -/
def fromInstructions (net : Network) (store : Store) (ixs : List Instruction) :
    FetchResult :=
  fetchAccounts net store (instructionPubkeys ixs)

/-- The Program Data Pointer: the slice `account.data[4..36]` (meaningful
when the data has at least 36 bytes). -/
def programDataPtr (a : Account) : List Nat :=
  (a.data.drop 4).take 32

/-- Reason string of the `MalformedProgram` error for a v3 program account
with fewer than 36 data bytes. -/
def tooSmallReason : String :=
  "BPF Loader v3 program account too small"

/-- Reason string of the `MalformedProgram` error for an unparsable program
data pubkey. -/
def badPtrReason : String :=
  "Invalid program data pubkey"

/-- Reason string of the `InvalidProgramData` error for a program data
account absent from the cache after the fetch step. -/
def pdNotFoundReason : String :=
  "Program data account not found"

/-- Reason string of the `InvalidProgramData` error for a program data
account whose data does not extend past the 45-byte header. -/
def pdTooSmallReason : String :=
  "Program data account too small"

/-- First pass of `add_programs`: walk the cache entries and, for every
executable account owned by the v3 loader, parse the Program Data Pointer
at bytes 4..36 (failing with `MalformedProgram` when the data is shorter
than 36 bytes or the pubkey does not parse) and collect pointers that are
not already cached. `fullCache` is the unmodified cache the containment
test runs against. -/
def collectPass (fullCache : Cache) :
    List (Pubkey × Account) → Except RpcError (List Pubkey)
  | [] => Except.ok []
  | (p, a) :: rest =>
    if a.executable = true ∧ a.owner = LOADER_V3 then
      if a.data.length < 36 then
        Except.error (RpcError.malformedProgram p tooSmallReason)
      else
        match pubkeyTryFrom (programDataPtr a) with
        | none => Except.error (RpcError.malformedProgram p badPtrReason)
        | some pd =>
          match collectPass fullCache rest with
          | Except.error e => Except.error e
          | Except.ok pds =>
            Except.ok (if containsKey fullCache pd then pds else pd :: pds)
    else collectPass fullCache rest

/-- A registration made with the Mollusk execution registry:
`add_program_with_elf_and_loader(address, bytecode, owner)`. -/
abbrev Registration := Pubkey × List Nat × Pubkey

/-- Second pass of `add_programs`: walk the cache entries and register
every executable loader-owned program with the execution registry,
returning the registrations made (in order) and the error that aborted the
pass, if any; registrations made before the failure point are kept, as in
the source (Mollusk is mutated before a later entry can fail). -/
def registerPass (validate : Bool) (cache : Cache) :
    List (Pubkey × Account) → List Registration × Option RpcError
  | [] => ([], none)
  | (p, a) :: rest =>
    if a.executable = true then
      if a.owner = LOADER_V2 then
        match (if validate then validateElf a.data else Except.ok ()) with
        | Except.error reason => ([], some (RpcError.invalidProgramData p reason))
        | Except.ok () =>
          let pr := registerPass validate cache rest
          ((p, a.data, a.owner) :: pr.1, pr.2)
      else if a.owner = LOADER_V3 then
        if a.data.length < 36 then
          ([], some (RpcError.malformedProgram p tooSmallReason))
        else
          match pubkeyTryFrom (programDataPtr a) with
          | none => ([], some (RpcError.malformedProgram p badPtrReason))
          | some pd =>
            match lookupAcct cache pd with
            | none => ([], some (RpcError.invalidProgramData p pdNotFoundReason))
            | some pda =>
              if pda.data.length ≤ 45 then
                ([], some (RpcError.invalidProgramData p pdTooSmallReason))
              else
                let elfData := pda.data.drop 45
                match (if validate then validateElf elfData else Except.ok ()) with
                | Except.error reason =>
                  ([], some (RpcError.invalidProgramData p reason))
                | Except.ok () =>
                  let pr := registerPass validate cache rest
                  ((p, elfData, a.owner) :: pr.1, pr.2)
      else registerPass validate cache rest
    else registerPass validate cache rest

/-- The result of `add_programs`: the store after the program-data fetch,
the registrations made with the execution registry, and the error that
aborted the operation, if any. -/
structure AddResult where
  store : Store
  registered : List Registration
  err : Option RpcError
deriving Repr, DecidableEq

/-- Model of `RpcAccountStore::add_programs`: first pass collects the
program data pubkeys to fetch; one batched fetch retrieves them; second
pass extracts bytecode and registers programs with the execution
registry. -/
def addPrograms (net : Network) (store : Store) : AddResult :=
  match collectPass store.cache store.cache with
  | Except.error e => { store := store, registered := [], err := some e }
  | Except.ok pds =>
    let fr :=
      if pds.isEmpty then { store := store, netCalls := 0, err := none }
      else fetchAccounts net store pds
    match fr.err with
    | some e => { store := fr.store, registered := [], err := some e }
    | none =>
      let pr :=
        registerPass fr.store.validate_programs fr.store.cache fr.store.cache
      { store := fr.store, registered := pr.1, err := pr.2 }

/-- Modelled from the spec: the Fixture Codec of section 4.5 is not among
the sources (only src/lib.rs is present); errors on load are
`InvalidFixture`, naming the unsupported version or the malformed address
text. -/
inductive FixtureError where
  | unsupportedVersion (version : Nat)
  | badAddressText (text : List Nat)
deriving Repr, DecidableEq

/-- Modelled from the spec: the text-safe (base64-style) encoding of a
binary payload, modelled as a digit-pair encoding; what matters to the
spec is that decoding inverts encoding. -/
def encodeData : List Nat → List Nat
  | [] => []
  | b :: rest => (b / 16) :: (b % 16) :: encodeData rest

/-- Modelled from the spec: decoding of the text-safe payload encoding. -/
def decodeData : List Nat → List Nat
  | h :: l :: rest => (h * 16 + l) :: decodeData rest
  | _ => []

/-- Modelled from the spec: the canonical text form of an address; every
32-byte address is text-representable, so the rendering is modelled as the
identity on byte lists. -/
def addrToText (p : Pubkey) : List Nat := p

/-- Modelled from the spec: parsing address text back into an Address,
failing on text that does not denote a 32-byte address. -/
def textToAddr (t : List Nat) : Option Pubkey :=
  if t.length = 32 then some t else none

/-- Modelled from the spec: one serialized account of the fixture format:
lamports, base64-style data text, owner address text, executable flag,
rent epoch. -/
structure SerAccount where
  lamports : Nat
  data : List Nat
  owner : List Nat
  executable : Bool
  rent_epoch : Nat
deriving Repr, DecidableEq

/-- Modelled from the spec: the versioned fixture envelope (the optional
capture metadata carries no account state and is omitted). -/
structure Fixture where
  version : Nat
  accounts : List (List Nat × SerAccount)
deriving Repr, DecidableEq

/-- Modelled from the spec: `save` serializes every cached record into the
version-1 envelope, encoding payloads text-safely and addresses in
canonical text form. -/
def fixtureSave (cache : Cache) : Fixture :=
  { version := 1,
    accounts := cache.map (fun e =>
      (addrToText e.1,
       { lamports := e.2.lamports, data := encodeData e.2.data,
         owner := addrToText e.2.owner, executable := e.2.executable,
         rent_epoch := e.2.rent_epoch })) }

/-- Modelled from the spec: reconstruction of the cache entries on load,
parsing each address text and owner text back into an Address and failing
with `InvalidFixture` on malformed text. -/
def loadEntries : List (List Nat × SerAccount) → Except FixtureError Cache
  | [] => Except.ok []
  | (t, s) :: rest =>
    match textToAddr t with
    | none => Except.error (FixtureError.badAddressText t)
    | some p =>
      match textToAddr s.owner with
      | none => Except.error (FixtureError.badAddressText s.owner)
      | some ow =>
        match loadEntries rest with
        | Except.error e => Except.error e
        | Except.ok entries =>
          Except.ok ((p,
            { lamports := s.lamports, data := decodeData s.data,
              owner := ow, executable := s.executable,
              rent_epoch := s.rent_epoch }) :: entries)

/-- Modelled from the spec: `load` parses the envelope, rejects any
version other than 1 naming the unsupported version, and reconstructs the
cache. -/
def fixtureLoad (fx : Fixture) : Except FixtureError Cache :=
  if fx.version ≠ 1 then
    Except.error (FixtureError.unsupportedVersion fx.version)
  else loadEntries fx.accounts

/-- Recognizer for the `InvalidProgramData` error variant. -/
def isInvalidProgramDataErr : Option RpcError → Bool
  | some (RpcError.invalidProgramData _ _) => true
  | _ => false

/-- The last `n` bytes of a byte sequence. -/
def lastBytes (n : Nat) (l : List Nat) : List Nat :=
  l.drop (l.length - n)

/-- Number of occurrences of a key in a pubkey list. -/
def countKey (K : Pubkey) : List Pubkey → Nat
  | [] => 0
  | q :: rest => (if q = K then 1 else 0) + countKey K rest

/-! Concrete test scenario data, used by witness theorems. -/

/-- A concrete program address. -/
def pA : Pubkey := List.replicate 31 0 ++ [10]

/-- A concrete program data address. -/
def pB : Pubkey := List.replicate 31 0 ++ [11]

/-- Another concrete address. -/
def pC : Pubkey := List.replicate 31 0 ++ [12]

/-- A 60-byte buffer with correct ELF magic and class byte 2. -/
def goodElf60 : List Nat := ELF_MAGIC ++ [2] ++ List.replicate 55 0

/-- An executable account owned by the v2 loader with inline bytecode. -/
def directAcct : Account :=
  { lamports := 1, data := goodElf60, owner := LOADER_V2,
    executable := true, rent_epoch := 0 }

/-- An executable account owned by the v3 loader whose bytes 4..36 point
at `pB`. -/
def indirectAcct : Account :=
  { lamports := 1, data := [0, 0, 0, 0] ++ pB, owner := LOADER_V3,
    executable := true, rent_epoch := 0 }

/-- A program data account with 50 data bytes (45-byte header plus 5 bytes
of bytecode). -/
def pdaAcct50 : Account :=
  { lamports := 2, data := List.replicate 50 7, owner := LOADER_V3,
    executable := false, rent_epoch := 0 }

/-- A program data account whose 100 data bytes hold a valid ELF after the
45-byte header. -/
def pdaAcct105 : Account :=
  { lamports := 2, data := List.replicate 45 9 ++ goodElf60,
    owner := LOADER_V3, executable := false, rent_epoch := 0 }

/-- A malformed v3 program account: only 3 data bytes. -/
def shortV3Acct : Account :=
  { lamports := 1, data := [1, 2, 3], owner := LOADER_V3,
    executable := true, rent_epoch := 0 }

/-- A network collaborator that knows no account. -/
def emptyNet : Network := fun _ => none

/-- A network collaborator that knows only the account at `pC`. -/
def stockNet : Network := fun q => if q = pC then some pdaAcct50 else none

/-- The store state after a successful fetch of `pC` from `stockNet`. -/
def store1c : Store :=
  { cache := [(pC, pdaAcct50)], allow_missing_accounts := false,
    validate_programs := true }

/-- A fresh store in permissive (allow-missing) mode. -/
def storePerm : Store :=
  { cache := [], allow_missing_accounts := true, validate_programs := true }

/-- Two instructions jointly referencing `pC`. -/
def ixs0 : List Instruction :=
  [{ accounts := [{ pubkey := pC }, { pubkey := pA }] },
   { accounts := [{ pubkey := pC }] }]

/-- A store holding an indirect program and its program data account,
with validation disabled. -/
def storeC1 : Store :=
  { cache := [(pA, indirectAcct), (pB, pdaAcct50)],
    allow_missing_accounts := false, validate_programs := false }

/-- A store holding a direct (v2) program with a valid ELF, with
validation enabled. -/
def storeC2 : Store :=
  { cache := [(pA, directAcct)],
    allow_missing_accounts := false, validate_programs := true }

/-- A program data account with only 40 data bytes (header does not
fit). -/
def pdaAcct40 : Account :=
  { lamports := 2, data := List.replicate 40 7, owner := LOADER_V3,
    executable := false, rent_epoch := 0 }

/-- A strict-mode store holding only the indirect program, whose pointer
target `pB` is not cached. -/
def storeC3 : Store :=
  { cache := [(pA, indirectAcct)], allow_missing_accounts := false,
    validate_programs := true }

/-- A store holding a malformed (3-byte) v3 program account. -/
def storeC4 : Store :=
  { cache := [(pC, shortV3Acct)], allow_missing_accounts := false,
    validate_programs := true }

/-- A store holding the indirect program and a too-small (40-byte) program
data account. -/
def storeC5a : Store :=
  { cache := [(pA, indirectAcct), (pB, pdaAcct40)],
    allow_missing_accounts := false, validate_programs := true }

/-- A single-record cache with valid 32-byte addresses, for the fixture
round-trip. -/
def cacheC9 : Cache := [(pA, directAcct)]

/-- A fixture with the unsupported version 2. -/
def fxBad : Fixture := { version := 2, accounts := [] }

/-! Lemmas about the cache operations. -/

theorem lookupAcct_append (l1 l2 : Cache) (p : Pubkey) :
    lookupAcct (l1 ++ l2) p =
      match lookupAcct l1 p with
      | some a => some a
      | none => lookupAcct l2 p := by
  induction l1 with
  | nil => simp [lookupAcct]
  | cons e rest ih =>
    obtain ⟨q, a⟩ := e
    by_cases h : q = p <;> simp [lookupAcct, h, ih]

theorem lookupAcct_eraseKey_self (c : Cache) (p : Pubkey) :
    lookupAcct (eraseKey c p) p = none := by
  induction c with
  | nil => simp [eraseKey, lookupAcct]
  | cons e rest ih =>
    obtain ⟨q, a⟩ := e
    by_cases h : q = p <;> simp [eraseKey, h, lookupAcct, ih]

theorem lookupAcct_eraseKey_ne (c : Cache) (p q : Pubkey) (hne : q ≠ p) :
    lookupAcct (eraseKey c p) q = lookupAcct c q := by
  induction c with
  | nil => simp [eraseKey]
  | cons e rest ih =>
    obtain ⟨r, a⟩ := e
    by_cases hr : r = p
    · subst hr
      have hrq : ¬ r = q := fun h => hne h.symm
      simp [eraseKey, lookupAcct, hrq, ih]
    · by_cases hq : r = q <;> simp [eraseKey, hr, lookupAcct, hq, ih, hne]

theorem lookupAcct_insert_self (c : Cache) (p : Pubkey) (a : Account) :
    lookupAcct (insertAcct c p a) p = some a := by
  simp [insertAcct, lookupAcct_append, lookupAcct_eraseKey_self, lookupAcct]

theorem lookupAcct_insert_ne (c : Cache) (p q : Pubkey) (a : Account) (hne : q ≠ p) :
    lookupAcct (insertAcct c p a) q = lookupAcct c q := by
  simp only [insertAcct, lookupAcct_append, lookupAcct_eraseKey_ne c p q hne]
  cases lookupAcct c q with
  | none => simp [lookupAcct, Ne.symm hne]
  | some b => rfl

theorem containsKey_insert (c : Cache) (p q : Pubkey) (a : Account)
    (h : containsKey c q = true) : containsKey (insertAcct c p a) q = true := by
  by_cases hq : q = p
  · subst hq; simp [containsKey, lookupAcct_insert_self]
  · simpa [containsKey, lookupAcct_insert_ne c p q a hq] using h

theorem containsKey_insert_self (c : Cache) (p : Pubkey) (a : Account) :
    containsKey (insertAcct c p a) p = true := by
  simp [containsKey, lookupAcct_insert_self]

/-! Lemmas about the result-merging loop of fetch_accounts. -/

theorem processFetched_permissive_no_err (cache : Cache)
    (results : List (Pubkey × Option Account)) :
    (processFetched true cache results).2 = none := by
  induction results generalizing cache with
  | nil => simp [processFetched]
  | cons e rest ih =>
    obtain ⟨q, o⟩ := e
    cases o <;> simp [processFetched, ih]

theorem processFetched_preserves (allow : Bool) (cache : Cache)
    (results : List (Pubkey × Option Account)) (r : Pubkey)
    (h : containsKey cache r = true) :
    containsKey (processFetched allow cache results).1 r = true := by
  induction results generalizing cache with
  | nil => simpa [processFetched] using h
  | cons e rest ih =>
    obtain ⟨q, o⟩ := e
    cases o with
    | some a => simpa [processFetched] using ih _ (containsKey_insert _ _ _ _ h)
    | none =>
      cases allow with
      | true => simpa [processFetched] using ih _ (containsKey_insert _ _ _ _ h)
      | false => simpa [processFetched] using h

theorem processFetched_covers (allow : Bool) (cache : Cache)
    (results : List (Pubkey × Option Account)) (q : Pubkey) (o : Option Account)
    (hmem : (q, o) ∈ results)
    (hok : (processFetched allow cache results).2 = none) :
    containsKey (processFetched allow cache results).1 q = true := by
  induction results generalizing cache with
  | nil => cases hmem
  | cons e rest ih =>
    obtain ⟨q', o'⟩ := e
    rcases List.mem_cons.mp hmem with heq | htail
    · obtain ⟨rfl, rfl⟩ := Prod.mk.injEq .. ▸ heq
      cases o with
      | some a =>
        simpa [processFetched] using
          processFetched_preserves allow _ rest q (containsKey_insert_self _ _ _)
      | none =>
        cases allow with
        | true =>
          simpa [processFetched] using
            processFetched_preserves true _ rest q (containsKey_insert_self _ _ _)
        | false => simp [processFetched] at hok
    · cases o' with
      | some a => simpa [processFetched] using ih _ htail (by simpa [processFetched] using hok)
      | none =>
        cases allow with
        | true => simpa [processFetched] using ih _ htail (by simpa [processFetched] using hok)
        | false => simp [processFetched] at hok

theorem processFetched_strict_first (cache : Cache)
    (results : List (Pubkey × Option Account)) (P : Pubkey)
    (hall : ∀ q, (q, (none : Option Account)) ∈ results → q = P)
    (hmem : (P, (none : Option Account)) ∈ results) :
    (processFetched false cache results).2 = some (RpcError.accountNotFound P) := by
  induction results generalizing cache with
  | nil => cases hmem
  | cons e rest ih =>
    obtain ⟨q, o⟩ := e
    cases o with
    | some a =>
      have htail : (P, (none : Option Account)) ∈ rest := by
        rcases List.mem_cons.mp hmem with heq | h
        · cases heq
        · exact h
      exact by
        simpa [processFetched] using
          ih _ (fun r hr => hall r (List.mem_cons_of_mem _ hr)) htail
    | none =>
      have : q = P := hall q (List.mem_cons_self _ _)
      subst this
      simp [processFetched]

theorem processFetched_untouched (allow : Bool) (cache : Cache)
    (results : List (Pubkey × Option Account)) (A : Pubkey)
    (habs : ∀ v, (A, v) ∉ results) :
    lookupAcct (processFetched allow cache results).1 A = lookupAcct cache A := by
  induction results generalizing cache with
  | nil => simp [processFetched]
  | cons e rest ih =>
    obtain ⟨q, o⟩ := e
    have hne : A ≠ q := by
      intro h
      exact habs o (h ▸ List.mem_cons_self _ _)
    have htail : ∀ v, (A, v) ∉ rest := fun v hv => habs v (List.mem_cons_of_mem _ hv)
    cases o with
    | some a =>
      simp only [processFetched]
      rw [ih _ htail, lookupAcct_insert_ne _ _ _ _ hne]
    | none =>
      cases allow with
      | true =>
        simp only [processFetched, if_true]
        rw [ih _ htail, lookupAcct_insert_ne _ _ _ _ hne]
      | false => simp [processFetched]

theorem processFetched_default (cache : Cache)
    (results : List (Pubkey × Option Account)) (A : Pubkey)
    (hmem : (A, (none : Option Account)) ∈ results)
    (hnone : ∀ v, (A, v) ∈ results → v = none) :
    lookupAcct (processFetched true cache results).1 A = some defaultAccount := by
  induction results generalizing cache with
  | nil => cases hmem
  | cons e rest ih =>
    obtain ⟨q, o⟩ := e
    cases o with
    | some a =>
      have hne : ¬ (A, (none : Option Account)) = (q, some a) := by
        intro h
        obtain ⟨rfl, h2⟩ := Prod.mk.injEq .. ▸ h
        cases h2
      have htail : (A, (none : Option Account)) ∈ rest := by
        rcases List.mem_cons.mp hmem with heq | h
        · exact absurd heq hne
        · exact h
      simpa [processFetched] using
        ih _ htail (fun v hv => hnone v (List.mem_cons_of_mem _ hv))
    | none =>
      by_cases htail : (A, (none : Option Account)) ∈ rest
      · simpa [processFetched] using
          ih _ htail (fun v hv => hnone v (List.mem_cons_of_mem _ hv))
      · have hqA : q = A := by
          rcases List.mem_cons.mp hmem with heq | h
          · obtain ⟨rfl, -⟩ := Prod.mk.injEq .. ▸ heq
            rfl
          · exact absurd h htail
        subst hqA
        have habs : ∀ v, (q, v) ∉ rest := by
          intro v hv
          have := hnone v (List.mem_cons_of_mem _ hv)
          subst this
          exact htail hv
        simp only [processFetched, if_true]
        rw [processFetched_untouched true _ rest q habs, lookupAcct_insert_self]

/-! Lemmas about fetch_accounts. -/

theorem isEmpty_false_of_mem {α : Type} (l : List α) (a : α) (h : a ∈ l) :
    l.isEmpty = false := by
  cases l with
  | nil => cases h
  | cons x xs => rfl

theorem countKey_eq_zero_of_not_mem (K : Pubkey) (l : List Pubkey) (h : K ∉ l) :
    countKey K l = 0 := by
  induction l with
  | nil => rfl
  | cons q rest ih =>
    have hq : ¬ q = K := fun hqe => h (hqe ▸ List.mem_cons_self _ _)
    simp only [countKey, hq, if_false, Nat.zero_add]
    exact ih (fun hm => h (List.mem_cons_of_mem _ hm))

theorem countKey_le_one_of_nodup (K : Pubkey) (l : List Pubkey) (h : l.Nodup) :
    countKey K l ≤ 1 := by
  induction l with
  | nil => simp [countKey]
  | cons q rest ih =>
    obtain ⟨hq, hrest⟩ := List.nodup_cons.mp h
    by_cases hqK : q = K
    · subst hqK
      simp [countKey, countKey_eq_zero_of_not_mem q rest hq]
    · simpa [countKey, hqK] using ih hrest

theorem countKey_filter_le (K : Pubkey) (l : List Pubkey) (f : Pubkey → Bool) :
    countKey K (l.filter f) ≤ countKey K l := by
  induction l with
  | nil => simp [countKey]
  | cons q rest ih =>
    rw [List.filter_cons]
    by_cases hf : f q = true
    · simp only [hf, if_true, countKey]
      exact Nat.add_le_add_left ih _
    · simp only [hf, if_false, countKey]
      exact le_trans ih (Nat.le_add_left _ _)

theorem fetchAccounts_noop (net : Network) (store : Store) (pubkeys : List Pubkey)
    (h : ∀ q ∈ pubkeys, containsKey store.cache q = true) :
    fetchAccounts net store pubkeys = ⟨store, 0, none⟩ := by
  have hm : pubkeys.filter (fun p => !containsKey store.cache p) = [] := by
    rw [List.filter_eq_nil_iff]
    intro q hq
    simp [h q hq]
  simp [fetchAccounts, hm]

theorem fetchAccounts_covers (net : Network) (store : Store) (pubkeys : List Pubkey)
    (hok : (fetchAccounts net store pubkeys).err = none) :
    ∀ q ∈ pubkeys, containsKey (fetchAccounts net store pubkeys).store.cache q = true := by
  intro q hq
  by_cases hempty :
      (pubkeys.filter (fun p => !containsKey store.cache p)).isEmpty = true
  · have hall := List.filter_eq_nil_iff.mp (List.isEmpty_iff.mp hempty)
    have : containsKey store.cache q = true := by
      have := hall q hq
      simpa using this
    simpa [fetchAccounts, hempty] using this
  · simp only [fetchAccounts, hempty, if_false]
    by_cases hc : containsKey store.cache q = true
    · exact processFetched_preserves _ _ _ _ hc
    · have hqm : q ∈ pubkeys.filter (fun p => !containsKey store.cache p) := by
        simp only [List.mem_filter, Bool.not_eq_true] at hc ⊢
        exact ⟨hq, by simp [hc]⟩
      have hres : (q, net q) ∈
          (pubkeys.filter (fun p => !containsKey store.cache p)).map
            (fun p => (p, net p)) :=
        List.mem_map.mpr ⟨q, hqm, rfl⟩
      have hok2 : (processFetched store.allow_missing_accounts store.cache
          ((pubkeys.filter (fun p => !containsKey store.cache p)).map
            (fun p => (p, net p)))).2 = none := by
        simpa [fetchAccounts, hempty] using hok
      exact processFetched_covers _ _ _ _ _ hres hok2

theorem fetchAccounts_one_call (net : Network) (store : Store) (pubkeys : List Pubkey)
    (h : ∃ q ∈ pubkeys, containsKey store.cache q = false) :
    (fetchAccounts net store pubkeys).netCalls = 1 := by
  obtain ⟨q, hq, hc⟩ := h
  have hqm : q ∈ pubkeys.filter (fun p => !containsKey store.cache p) := by
    simp only [List.mem_filter]
    exact ⟨hq, by simp [hc]⟩
  have hempty : (pubkeys.filter (fun p => !containsKey store.cache p)).isEmpty = false :=
    isEmpty_false_of_mem _ _ hqm
  simp [fetchAccounts, hempty]

/-- C6: a fetch whose requested addresses are all cached is a no-op with
zero network calls; a second fetch of the same set after a successful first
fetch issues no network call and leaves the cache unchanged; a fetch with
at least one uncached address issues exactly one batched round-trip; and
the pubkey set from_instructions builds over N instructions is
deduplicated, so a key K they jointly reference occurs (and is looked up)
at most once. -/
theorem claim_C6 (net : Network) (store store1 : Store) (pubkeys : List Pubkey)
    (n : Nat) (ixs : List Instruction) (K : Pubkey) :
    ((∀ q ∈ pubkeys, containsKey store.cache q = true) →
       fetchAccounts net store pubkeys = ⟨store, 0, none⟩) ∧
    (fetchAccounts net store pubkeys = ⟨store1, n, none⟩ →
       fetchAccounts net store1 pubkeys = ⟨store1, 0, none⟩) ∧
    ((∃ q ∈ pubkeys, containsKey store.cache q = false) →
       (fetchAccounts net store pubkeys).netCalls = 1) ∧
    countKey K (instructionPubkeys ixs) ≤ 1 ∧
    countKey K ((instructionPubkeys ixs).filter (fun q => !containsKey store.cache q)) ≤ 1 := by
  refine ⟨fetchAccounts_noop net store pubkeys, ?_, fetchAccounts_one_call net store pubkeys, ?_, ?_⟩
  · intro h1
    apply fetchAccounts_noop
    intro q hq
    have := fetchAccounts_covers net store pubkeys (by simp [h1]) q hq
    simpa [h1] using this
  · exact countKey_le_one_of_nodup K _ (List.nodup_dedup _)
  · calc countKey K ((instructionPubkeys ixs).filter (fun q => !containsKey store.cache q))
        ≤ countKey K (instructionPubkeys ixs) := countKey_filter_le K _ _
      _ ≤ 1 := countKey_le_one_of_nodup K _ (List.nodup_dedup _)

/-- C7: if the network reports a requested, uncached address A as not
found, a strict-mode fetch fails with AccountNotFound naming A (A being
the only such unresolved address), while a permissive-mode fetch never
errors and materializes a zero-valued default record for A in the
cache. -/
theorem claim_C7 (net : Network) (store : Store) (pubkeys : List Pubkey) (A : Pubkey) :
    (store.allow_missing_accounts = false → A ∈ pubkeys →
      containsKey store.cache A = false → net A = none →
      (∀ q ∈ pubkeys, containsKey store.cache q = false → net q = none → q = A) →
      (fetchAccounts net store pubkeys).err = some (RpcError.accountNotFound A)) ∧
    (store.allow_missing_accounts = true →
      (fetchAccounts net store pubkeys).err = none ∧
      (A ∈ pubkeys → containsKey store.cache A = false → net A = none →
        lookupAcct (fetchAccounts net store pubkeys).store.cache A = some defaultAccount)) := by
  constructor
  · intro hstrict hA hcA hnA huniq
    have hAm : A ∈ pubkeys.filter (fun p => !containsKey store.cache p) := by
      simp only [List.mem_filter]
      exact ⟨hA, by simp [hcA]⟩
    have hempty : (pubkeys.filter (fun p => !containsKey store.cache p)).isEmpty = false :=
      isEmpty_false_of_mem _ _ hAm
    have hall : ∀ q, (q, (none : Option Account)) ∈
        (pubkeys.filter (fun p => !containsKey store.cache p)).map (fun p => (p, net p)) →
        q = A := by
      intro q hq
      obtain ⟨x, hx2, hxq⟩ := List.mem_map.mp hq
      have h1 : x = q := congrArg Prod.fst hxq
      have h2 : net x = none := by simpa using congrArg Prod.snd hxq
      obtain ⟨hqp, hqc⟩ := List.mem_filter.mp hx2
      rw [← h1]
      exact huniq x hqp (by simpa using hqc) h2
    have hmem : (A, (none : Option Account)) ∈
        (pubkeys.filter (fun p => !containsKey store.cache p)).map (fun p => (p, net p)) :=
      List.mem_map.mpr ⟨A, hAm, by rw [hnA]⟩
    simp only [fetchAccounts, hempty, if_false]
    simpa [hstrict] using
      processFetched_strict_first store.cache _ A hall hmem
  · intro hperm
    constructor
    · by_cases hempty :
          (pubkeys.filter (fun p => !containsKey store.cache p)).isEmpty = true
      · simp [fetchAccounts, hempty]
      · simp only [fetchAccounts, Bool.not_eq_true] at hempty ⊢
        simp [hempty, hperm, processFetched_permissive_no_err]
    · intro hA hcA hnA
      have hAm : A ∈ pubkeys.filter (fun p => !containsKey store.cache p) := by
        simp only [List.mem_filter]
        exact ⟨hA, by simp [hcA]⟩
      have hempty : (pubkeys.filter (fun p => !containsKey store.cache p)).isEmpty = false :=
        isEmpty_false_of_mem _ _ hAm
      have hmem : (A, (none : Option Account)) ∈
          (pubkeys.filter (fun p => !containsKey store.cache p)).map (fun p => (p, net p)) :=
        List.mem_map.mpr ⟨A, hAm, by rw [hnA]⟩
      have hnone : ∀ v, (A, v) ∈
          (pubkeys.filter (fun p => !containsKey store.cache p)).map (fun p => (p, net p)) →
          v = none := by
        intro v hv
        obtain ⟨x, hx2, hxv⟩ := List.mem_map.mp hv
        have h1 : x = A := congrArg Prod.fst hxv
        have h2 : net x = v := by simpa using congrArg Prod.snd hxv
        rw [← h2, h1, hnA]
      simp only [fetchAccounts, hempty, if_false]
      simpa [hperm] using processFetched_default store.cache _ A hmem hnone

/-- Witness for C6: concrete no-op refetch, concrete single round-trip, and
concrete dedup bound, obtained by instantiating the claim. -/
theorem claim_C6_witness :
    fetchAccounts stockNet store1c [pC] = ⟨store1c, 0, none⟩ ∧
    (fetchAccounts stockNet newStore [pC]).netCalls = 1 ∧
    countKey pC (instructionPubkeys ixs0) ≤ 1 :=
  ⟨(claim_C6 stockNet newStore store1c [pC] 1 ixs0 pC).2.1 (by decide),
   (claim_C6 stockNet newStore store1c [pC] 1 ixs0 pC).2.2.1 ⟨pC, by decide, by decide⟩,
   (claim_C6 stockNet newStore store1c [pC] 1 ixs0 pC).2.2.2.1⟩

/-- Witness for C7: a concrete missing account fails the strict fetch with
AccountNotFound and is materialized as a default record by the permissive
fetch, obtained by instantiating the claim. -/
theorem claim_C7_witness :
    (fetchAccounts emptyNet newStore [pC]).err = some (RpcError.accountNotFound pC) ∧
    (fetchAccounts emptyNet storePerm [pC]).err = none ∧
    lookupAcct (fetchAccounts emptyNet storePerm [pC]).store.cache pC = some defaultAccount :=
  ⟨(claim_C7 emptyNet newStore [pC] pC).1 rfl (by decide) (by decide) rfl (by decide),
   ((claim_C7 emptyNet storePerm [pC] pC).2 rfl).1,
   ((claim_C7 emptyNet storePerm [pC] pC).2 rfl).2 (by decide) (by decide) rfl⟩

/-! Lemmas about the two passes of add_programs. -/

theorem loaders_distinct : LOADER_V2 ≠ LOADER_V3 := by decide

theorem programDataPtr_length (a : Account) (h : 36 ≤ a.data.length) :
    (programDataPtr a).length = 32 := by
  simp only [programDataPtr, List.length_take, List.length_drop]
  omega

theorem pubkeyTryFrom_ptr (a : Account) (h : 36 ≤ a.data.length) :
    pubkeyTryFrom (programDataPtr a) = some (programDataPtr a) := by
  simp [pubkeyTryFrom, programDataPtr_length a h]

theorem pubkeyTryFrom_some (bs pk : List Nat) (h : pubkeyTryFrom bs = some pk) :
    pk = bs := by
  by_cases hl : bs.length = 32
  · simpa [pubkeyTryFrom, hl] using h.symm
  · simp [pubkeyTryFrom, hl] at h

theorem registerPass_cons_cases (v : Bool) (cache : Cache) (q : Pubkey)
    (b : Account) (rest : List (Pubkey × Account)) :
    (∃ e, (∀ r, e ≠ RpcError.malformedProgram r badPtrReason) ∧
      registerPass v cache ((q, b) :: rest) = ([], some e)) ∨
    ((b.executable = false ∨ (b.owner ≠ LOADER_V2 ∧ b.owner ≠ LOADER_V3)) ∧
      registerPass v cache ((q, b) :: rest) = registerPass v cache rest) ∨
    (b.executable = true ∧ b.owner = LOADER_V2 ∧
      registerPass v cache ((q, b) :: rest) =
        ((q, b.data, b.owner) :: (registerPass v cache rest).1,
         (registerPass v cache rest).2)) ∨
    (b.executable = true ∧ b.owner = LOADER_V3 ∧ ∃ pda,
      lookupAcct cache (programDataPtr b) = some pda ∧ 45 < pda.data.length ∧
      registerPass v cache ((q, b) :: rest) =
        ((q, pda.data.drop 45, b.owner) :: (registerPass v cache rest).1,
         (registerPass v cache rest).2)) := by
  by_cases hexec : b.executable = true
  · by_cases hv2 : b.owner = LOADER_V2
    · cases hval : (if v then validateElf b.data else Except.ok ()) with
      | error reason =>
        have hstep : registerPass v cache ((q, b) :: rest) =
            ([], some (RpcError.invalidProgramData q reason)) := by
          simp only [registerPass, hexec, hv2, if_true, hval]
        have hne : ∀ r, RpcError.invalidProgramData q reason ≠
            RpcError.malformedProgram r badPtrReason := fun r h => by cases h
        exact Or.inl ⟨RpcError.invalidProgramData q reason, hne, hstep⟩
      | ok u =>
        cases u
        have hstep : registerPass v cache ((q, b) :: rest) =
            ((q, b.data, b.owner) :: (registerPass v cache rest).1,
             (registerPass v cache rest).2) := by
          simp only [registerPass, hexec, hv2, if_true, hval]
        exact Or.inr (Or.inr (Or.inl ⟨hexec, hv2, hstep⟩))
    · have h32 : ¬ (LOADER_V3 = LOADER_V2) := fun h => loaders_distinct h.symm
      by_cases hv3 : b.owner = LOADER_V3
      · by_cases hlen : b.data.length < 36
        · have hstep : registerPass v cache ((q, b) :: rest) =
              ([], some (RpcError.malformedProgram q tooSmallReason)) := by
            simp only [registerPass, hexec, hv2, hv3, hlen, if_true, if_false, h32]
          have hne : ∀ r, RpcError.malformedProgram q tooSmallReason ≠
              RpcError.malformedProgram r badPtrReason := fun r h => by
            injection h with h1 h2
            exact absurd h2 (by decide)
          exact Or.inl ⟨RpcError.malformedProgram q tooSmallReason, hne, hstep⟩
        · have hparse := pubkeyTryFrom_ptr b (by omega)
          cases hlook : lookupAcct cache (programDataPtr b) with
          | none =>
            have hstep : registerPass v cache ((q, b) :: rest) =
                ([], some (RpcError.invalidProgramData q pdNotFoundReason)) := by
              simp only [registerPass, hexec, hv2, hv3, hlen, if_true, if_false,
                hparse, hlook, h32]
            have hne : ∀ r, RpcError.invalidProgramData q pdNotFoundReason ≠
                RpcError.malformedProgram r badPtrReason := fun r h => by cases h
            exact Or.inl ⟨RpcError.invalidProgramData q pdNotFoundReason, hne, hstep⟩
          | some pda =>
            by_cases hsz : pda.data.length ≤ 45
            · have hstep : registerPass v cache ((q, b) :: rest) =
                  ([], some (RpcError.invalidProgramData q pdTooSmallReason)) := by
                simp only [registerPass, hexec, hv2, hv3, hlen, if_true, if_false,
                  hparse, hlook, hsz, h32]
              have hne : ∀ r, RpcError.invalidProgramData q pdTooSmallReason ≠
                  RpcError.malformedProgram r badPtrReason := fun r h => by cases h
              exact Or.inl ⟨RpcError.invalidProgramData q pdTooSmallReason, hne, hstep⟩
            · cases hval : (if v then validateElf (pda.data.drop 45) else Except.ok ()) with
              | error reason =>
                have hstep : registerPass v cache ((q, b) :: rest) =
                    ([], some (RpcError.invalidProgramData q reason)) := by
                  simp only [registerPass, hexec, hv2, hv3, hlen, if_true, if_false,
                    hparse, hlook, hsz, hval, h32]
                have hne : ∀ r, RpcError.invalidProgramData q reason ≠
                    RpcError.malformedProgram r badPtrReason := fun r h => by cases h
                exact Or.inl ⟨RpcError.invalidProgramData q reason, hne, hstep⟩
              | ok u =>
                cases u
                have hstep : registerPass v cache ((q, b) :: rest) =
                    ((q, pda.data.drop 45, b.owner) :: (registerPass v cache rest).1,
                     (registerPass v cache rest).2) := by
                  simp only [registerPass, hexec, hv2, hv3, hlen, if_true, if_false,
                    hparse, hlook, hsz, hval, h32]
                exact Or.inr (Or.inr (Or.inr
                  ⟨hexec, hv3, pda, rfl, by omega, hstep⟩))
      · have hstep : registerPass v cache ((q, b) :: rest) =
            registerPass v cache rest := by
          simp only [registerPass, hexec, hv2, hv3, if_true, if_false]
        exact Or.inr (Or.inl ⟨Or.inr ⟨hv2, hv3⟩, hstep⟩)
  · have hstep : registerPass v cache ((q, b) :: rest) =
        registerPass v cache rest := by
      simp [registerPass, hexec]
    exact Or.inr (Or.inl ⟨Or.inl (by simpa using hexec), hstep⟩)

theorem registerPass_tail (v : Bool) (cache : Cache) (q : Pubkey) (b : Account)
    (rest : List (Pubkey × Account))
    (hok : (registerPass v cache ((q, b) :: rest)).2 = none) :
    (registerPass v cache rest).2 = none ∧
    ∀ r, r ∈ (registerPass v cache rest).1 →
      r ∈ (registerPass v cache ((q, b) :: rest)).1 := by
  rcases registerPass_cons_cases v cache q b rest with
    ⟨e, -, he⟩ | ⟨-, hid⟩ | ⟨-, -, hcons⟩ | ⟨-, -, pda, -, -, hcons⟩
  · simp [he] at hok
  · rw [hid] at hok
    exact ⟨hok, fun r hr => by rw [hid]; exact hr⟩
  · rw [hcons] at hok
    exact ⟨hok, fun r hr => by rw [hcons]; exact List.mem_cons_of_mem _ hr⟩
  · rw [hcons] at hok
    exact ⟨hok, fun r hr => by rw [hcons]; exact List.mem_cons_of_mem _ hr⟩

theorem registerPass_mem_v2 (v : Bool) (cache : Cache)
    (entries : List (Pubkey × Account)) (p : Pubkey) (a : Account)
    (hok : (registerPass v cache entries).2 = none)
    (hmem : (p, a) ∈ entries) (hexec : a.executable = true)
    (hown : a.owner = LOADER_V2) :
    (p, a.data, a.owner) ∈ (registerPass v cache entries).1 := by
  induction entries with
  | nil => cases hmem
  | cons e rest ih =>
    obtain ⟨q, b⟩ := e
    rcases List.mem_cons.mp hmem with heq | htail
    · injection heq with h1 h2
      subst h1
      subst h2
      rcases registerPass_cons_cases v cache p a rest with
        ⟨e', -, he⟩ | ⟨hskip, -⟩ | ⟨-, -, hcons⟩ | ⟨-, hv3, -, -, -, -⟩
      · simp [he] at hok
      · rcases hskip with hq | ⟨h2, -⟩
        · rw [hexec] at hq; cases hq
        · exact absurd hown h2
      · rw [hcons]
        exact List.mem_cons_self _ _
      · exact absurd (hown ▸ hv3 : LOADER_V2 = LOADER_V3) loaders_distinct
    · obtain ⟨htl, hlift⟩ := registerPass_tail v cache q b rest hok
      exact hlift _ (ih htl htail)

theorem registerPass_mem_v3 (v : Bool) (cache : Cache)
    (entries : List (Pubkey × Account)) (p : Pubkey) (a pda : Account)
    (hok : (registerPass v cache entries).2 = none)
    (hmem : (p, a) ∈ entries) (hexec : a.executable = true)
    (hown : a.owner = LOADER_V3)
    (hpda : lookupAcct cache (programDataPtr a) = some pda) :
    (p, pda.data.drop 45, a.owner) ∈ (registerPass v cache entries).1 := by
  induction entries with
  | nil => cases hmem
  | cons e rest ih =>
    obtain ⟨q, b⟩ := e
    rcases List.mem_cons.mp hmem with heq | htail
    · injection heq with h1 h2
      subst h1
      subst h2
      rcases registerPass_cons_cases v cache p a rest with
        ⟨e', -, he⟩ | ⟨hskip, -⟩ | ⟨-, hv2, -⟩ | ⟨-, -, pda', hlook, -, hcons⟩
      · simp [he] at hok
      · rcases hskip with hq | ⟨-, h3⟩
        · rw [hexec] at hq; cases hq
        · exact absurd hown h3
      · exact absurd (hv2 ▸ hown : LOADER_V2 = LOADER_V3) loaders_distinct
      · have hpp : pda' = pda := by
          have := hlook.symm.trans hpda
          injection this
        subst hpp
        rw [hcons]
        exact List.mem_cons_self _ _
    · obtain ⟨htl, hlift⟩ := registerPass_tail v cache q b rest hok
      exact hlift _ (ih htl htail)

theorem registerPass_sound (v : Bool) (cache : Cache)
    (entries : List (Pubkey × Account)) (q : Pubkey) (bc : List Nat) (ow : Pubkey)
    (hmem : (q, bc, ow) ∈ (registerPass v cache entries).1) :
    ∃ b, (q, b) ∈ entries ∧ b.executable = true ∧ ow = b.owner ∧
      ((b.owner = LOADER_V2 ∧ bc = b.data) ∨
       (b.owner = LOADER_V3 ∧ ∃ pda,
         lookupAcct cache (programDataPtr b) = some pda ∧
         bc = pda.data.drop 45)) := by
  induction entries with
  | nil => simp [registerPass] at hmem
  | cons e rest ih =>
    obtain ⟨q', b⟩ := e
    rcases registerPass_cons_cases v cache q' b rest with
      ⟨e', -, he⟩ | ⟨-, hid⟩ | ⟨hex, hv2, hcons⟩ | ⟨hex, hv3, pda, hlook, -, hcons⟩
    · rw [he] at hmem
      cases hmem
    · rw [hid] at hmem
      obtain ⟨b', hb1, hb2, hb3, hb4⟩ := ih hmem
      exact ⟨b', List.mem_cons_of_mem _ hb1, hb2, hb3, hb4⟩
    · rw [hcons] at hmem
      rcases List.mem_cons.mp hmem with heq | htail
      · injection heq with h1 h2
        injection h2 with h2a h2b
        subst h1
        exact ⟨b, List.mem_cons_self _ _, hex, h2b, Or.inl ⟨hv2, h2a⟩⟩
      · obtain ⟨b', hb1, hb2, hb3, hb4⟩ := ih htail
        exact ⟨b', List.mem_cons_of_mem _ hb1, hb2, hb3, hb4⟩
    · rw [hcons] at hmem
      rcases List.mem_cons.mp hmem with heq | htail
      · injection heq with h1 h2
        injection h2 with h2a h2b
        subst h1
        exact ⟨b, List.mem_cons_self _ _, hex, h2b,
          Or.inr ⟨hv3, pda, hlook, h2a⟩⟩
      · obtain ⟨b', hb1, hb2, hb3, hb4⟩ := ih htail
        exact ⟨b', List.mem_cons_of_mem _ hb1, hb2, hb3, hb4⟩

theorem mem_unique_of_nodup_keys (c : Cache) (p : Pubkey) (a b : Account)
    (hn : (c.map Prod.fst).Nodup) (ha : (p, a) ∈ c) (hb : (p, b) ∈ c) :
    a = b := by
  induction c with
  | nil => cases ha
  | cons e rest ih =>
    obtain ⟨q, x⟩ := e
    have hn' : (q :: rest.map Prod.fst).Nodup := by simpa using hn
    obtain ⟨hq, hrest⟩ := List.nodup_cons.mp hn'
    rcases List.mem_cons.mp ha with haeq | hatl <;>
      rcases List.mem_cons.mp hb with hbeq | hbtl
    · injection haeq with ha1 ha2
      injection hbeq with hb1 hb2
      exact ha2.trans hb2.symm
    · injection haeq with ha1 ha2
      subst ha1
      exact absurd (List.mem_map.mpr ⟨(p, b), hbtl, rfl⟩) hq
    · injection hbeq with hb1 hb2
      subst hb1
      exact absurd (List.mem_map.mpr ⟨(p, a), hatl, rfl⟩) hq
    · exact ih hrest hatl hbtl

theorem addPrograms_collect_err (net : Network) (store : Store) (e : RpcError)
    (h : collectPass store.cache store.cache = Except.error e) :
    addPrograms net store = { store := store, registered := [], err := some e } := by
  simp only [addPrograms, h]

theorem addPrograms_fetch_err (net : Network) (store : Store) (pds : List Pubkey)
    (e : RpcError)
    (h : collectPass store.cache store.cache = Except.ok pds)
    (hf : (if pds.isEmpty then
        ({ store := store, netCalls := 0, err := none } : FetchResult)
      else fetchAccounts net store pds).err = some e) :
    addPrograms net store =
      { store := (if pds.isEmpty then
            ({ store := store, netCalls := 0, err := none } : FetchResult)
          else fetchAccounts net store pds).store,
        registered := [], err := some e } := by
  simp only [addPrograms, h, hf]

theorem addPrograms_fetch_ok (net : Network) (store : Store) (pds : List Pubkey)
    (h : collectPass store.cache store.cache = Except.ok pds)
    (hf : (if pds.isEmpty then
        ({ store := store, netCalls := 0, err := none } : FetchResult)
      else fetchAccounts net store pds).err = none) :
    addPrograms net store =
      { store := (if pds.isEmpty then
            ({ store := store, netCalls := 0, err := none } : FetchResult)
          else fetchAccounts net store pds).store,
        registered := (registerPass
          (if pds.isEmpty then
            ({ store := store, netCalls := 0, err := none } : FetchResult)
          else fetchAccounts net store pds).store.validate_programs
          (if pds.isEmpty then
            ({ store := store, netCalls := 0, err := none } : FetchResult)
          else fetchAccounts net store pds).store.cache
          (if pds.isEmpty then
            ({ store := store, netCalls := 0, err := none } : FetchResult)
          else fetchAccounts net store pds).store.cache).1,
        err := (registerPass
          (if pds.isEmpty then
            ({ store := store, netCalls := 0, err := none } : FetchResult)
          else fetchAccounts net store pds).store.validate_programs
          (if pds.isEmpty then
            ({ store := store, netCalls := 0, err := none } : FetchResult)
          else fetchAccounts net store pds).store.cache
          (if pds.isEmpty then
            ({ store := store, netCalls := 0, err := none } : FetchResult)
          else fetchAccounts net store pds).store.cache).2 } := by
  simp only [addPrograms, h, hf]

theorem addPrograms_ok_register (net : Network) (store : Store)
    (hok : (addPrograms net store).err = none) :
    (registerPass (addPrograms net store).store.validate_programs
        (addPrograms net store).store.cache (addPrograms net store).store.cache).2
      = none ∧
    (registerPass (addPrograms net store).store.validate_programs
        (addPrograms net store).store.cache (addPrograms net store).store.cache).1
      = (addPrograms net store).registered := by
  cases hcol : collectPass store.cache store.cache with
  | error e =>
    rw [addPrograms_collect_err net store e hcol] at hok
    cases hok
  | ok pds =>
    cases hfr : (if pds.isEmpty then
        ({ store := store, netCalls := 0, err := none } : FetchResult)
      else fetchAccounts net store pds).err with
    | some e =>
      rw [addPrograms_fetch_err net store pds e hcol hfr] at hok
      cases hok
    | none =>
      rw [addPrograms_fetch_ok net store pds hcol hfr] at hok ⊢
      exact ⟨hok, rfl⟩

/-- C1: for every cached executable account owned by the BPF Loader v3
(Indirect) constant, a successful add_programs registers, with the
execution registry, the bytecode consisting of bytes 45..end of the data
of the cached account at the Program Data Pointer read from bytes 4..36;
with a 50-byte program data account the registered bytecode is exactly
the last 5 bytes of its data, and under key-unique caches no other
bytecode is registered for that program. -/
theorem claim_C1 (net : Network) (store : Store) (p : Pubkey) (a pda : Account)
    (hok : (addPrograms net store).err = none)
    (hmem : (p, a) ∈ (addPrograms net store).store.cache)
    (hexec : a.executable = true)
    (hown : a.owner = LOADER_V3)
    (hpda : lookupAcct (addPrograms net store).store.cache
      ((a.data.drop 4).take 32) = some pda) :
    (p, pda.data.drop 45, a.owner) ∈ (addPrograms net store).registered ∧
    (pda.data.length = 50 →
      (p, lastBytes 5 pda.data, a.owner) ∈ (addPrograms net store).registered) ∧
    (((addPrograms net store).store.cache.map Prod.fst).Nodup →
      ∀ bc ow, (p, bc, ow) ∈ (addPrograms net store).registered →
        bc = pda.data.drop 45 ∧ ow = a.owner) := by
  obtain ⟨h2, h1⟩ := addPrograms_ok_register net store hok
  have hpda' : lookupAcct (addPrograms net store).store.cache (programDataPtr a)
      = some pda := hpda
  have hmain : (p, pda.data.drop 45, a.owner) ∈ (addPrograms net store).registered := by
    rw [← h1]
    exact registerPass_mem_v3 _ _ _ p a pda h2 hmem hexec hown hpda'
  refine ⟨hmain, ?_, ?_⟩
  · intro hlen
    have hlast : lastBytes 5 pda.data = pda.data.drop 45 := by
      simp [lastBytes, hlen]
    rw [hlast]
    exact hmain
  · intro hnodup bc ow hbc
    rw [← h1] at hbc
    obtain ⟨b, hb1, hb2, hb3, hb4⟩ := registerPass_sound _ _ _ p bc ow hbc
    have hba : b = a := mem_unique_of_nodup_keys _ p b a hnodup hb1 hmem
    subst hba
    rcases hb4 with ⟨ho2, -⟩ | ⟨-, pda', hl', hbc'⟩
    · exact absurd (ho2 ▸ hown) (fun h => loaders_distinct h)
    · have hpp : pda' = pda := by
        have := hl'.symm.trans hpda'
        injection this
      subst hpp
      exact ⟨hbc', hb3⟩

/-- Witness for C1: the concrete indirect program at `pA`, pointing at the
50-byte program data account at `pB`, gets exactly the last 5 bytes
registered. -/
theorem claim_C1_witness :
    (pA, pdaAcct50.data.drop 45, indirectAcct.owner)
      ∈ (addPrograms emptyNet storeC1).registered ∧
    (pA, lastBytes 5 pdaAcct50.data, indirectAcct.owner)
      ∈ (addPrograms emptyNet storeC1).registered :=
  ⟨(claim_C1 emptyNet storeC1 pA indirectAcct pdaAcct50 (by decide) (by decide)
      (by decide) (by decide) (by decide)).1,
   (claim_C1 emptyNet storeC1 pA indirectAcct pdaAcct50 (by decide) (by decide)
      (by decide) (by decide) (by decide)).2.1 (by decide)⟩

/-- C2: for every cached executable account owned by the BPF Loader v2
(Direct) constant, a successful add_programs (validation disabled or
passed) registers exactly the entire account data as the bytecode with
the execution registry. -/
theorem claim_C2 (net : Network) (store : Store) (p : Pubkey) (a : Account)
    (hok : (addPrograms net store).err = none)
    (hmem : (p, a) ∈ (addPrograms net store).store.cache)
    (hexec : a.executable = true)
    (hown : a.owner = LOADER_V2) :
    (p, a.data, a.owner) ∈ (addPrograms net store).registered ∧
    (((addPrograms net store).store.cache.map Prod.fst).Nodup →
      ∀ bc ow, (p, bc, ow) ∈ (addPrograms net store).registered →
        bc = a.data ∧ ow = a.owner) := by
  obtain ⟨h2, h1⟩ := addPrograms_ok_register net store hok
  constructor
  · rw [← h1]
    exact registerPass_mem_v2 _ _ _ p a h2 hmem hexec hown
  · intro hnodup bc ow hbc
    rw [← h1] at hbc
    obtain ⟨b, hb1, hb2, hb3, hb4⟩ := registerPass_sound _ _ _ p bc ow hbc
    have hba : b = a := mem_unique_of_nodup_keys _ p b a hnodup hb1 hmem
    subst hba
    rcases hb4 with ⟨-, hbc'⟩ | ⟨ho3, -⟩
    · exact ⟨hbc', hb3⟩
    · exact absurd (hown ▸ ho3) (fun h => loaders_distinct h)

/-- Witness for C2: the concrete direct program at `pA` gets its entire
data registered as bytecode under enabled, passing validation. -/
theorem claim_C2_witness :
    (pA, directAcct.data, directAcct.owner)
      ∈ (addPrograms emptyNet storeC2).registered :=
  (claim_C2 emptyNet storeC2 pA directAcct (by decide) (by decide)
    (by decide) (by decide)).1

/-! Lemmas about the pointer-collection pass of add_programs. -/

theorem collectPass_cons_cases (fc : Cache) (q : Pubkey) (b : Account)
    (rest : List (Pubkey × Account)) :
    (¬(b.executable = true ∧ b.owner = LOADER_V3) ∧
      collectPass fc ((q, b) :: rest) = collectPass fc rest) ∨
    (b.executable = true ∧ b.owner = LOADER_V3 ∧ b.data.length < 36 ∧
      collectPass fc ((q, b) :: rest) =
        Except.error (RpcError.malformedProgram q tooSmallReason)) ∨
    (b.executable = true ∧ b.owner = LOADER_V3 ∧ 36 ≤ b.data.length ∧
      ((∃ e, collectPass fc rest = Except.error e ∧
         collectPass fc ((q, b) :: rest) = Except.error e) ∨
       (∃ pds, collectPass fc rest = Except.ok pds ∧
         collectPass fc ((q, b) :: rest) =
           Except.ok (if containsKey fc (programDataPtr b) then pds
             else programDataPtr b :: pds)))) := by
  by_cases hqual : b.executable = true ∧ b.owner = LOADER_V3
  · by_cases hlen : b.data.length < 36
    · have hstep : collectPass fc ((q, b) :: rest) =
          Except.error (RpcError.malformedProgram q tooSmallReason) := by
        simp [collectPass, hqual, hlen]
      exact Or.inr (Or.inl ⟨hqual.1, hqual.2, hlen, hstep⟩)
    · have hparse := pubkeyTryFrom_ptr b (by omega)
      cases hrest : collectPass fc rest with
      | error e =>
        have hstep : collectPass fc ((q, b) :: rest) = Except.error e := by
          simp [collectPass, hqual, hlen, hparse, hrest]
        exact Or.inr (Or.inr ⟨hqual.1, hqual.2, by omega, Or.inl ⟨e, rfl, hstep⟩⟩)
      | ok pds =>
        have hstep : collectPass fc ((q, b) :: rest) =
            Except.ok (if containsKey fc (programDataPtr b) then pds
              else programDataPtr b :: pds) := by
          simp [collectPass, hqual, hlen, hparse, hrest]
        exact Or.inr (Or.inr ⟨hqual.1, hqual.2, by omega, Or.inr ⟨pds, rfl, hstep⟩⟩)
  · have hstep : collectPass fc ((q, b) :: rest) = collectPass fc rest := by
      simp only [collectPass, hqual, if_false]
    exact Or.inl ⟨hqual, hstep⟩

theorem collectPass_ok_of_wf (fc : Cache) (entries : List (Pubkey × Account))
    (hwf : ∀ q b, (q, b) ∈ entries → b.executable = true →
      b.owner = LOADER_V3 → 36 ≤ b.data.length) :
    ∃ pds, collectPass fc entries = Except.ok pds := by
  induction entries with
  | nil => exact ⟨[], rfl⟩
  | cons e rest ih =>
    obtain ⟨q, b⟩ := e
    have ihr := ih (fun q' b' h' => hwf q' b' (List.mem_cons_of_mem _ h'))
    obtain ⟨pds, hpds⟩ := ihr
    rcases collectPass_cons_cases fc q b rest with
      ⟨-, hid⟩ | ⟨hex, hv3, hlen, -⟩ | ⟨-, -, -, ⟨e', he', -⟩ | ⟨pds', -, hstep⟩⟩
    · exact ⟨pds, hid.trans hpds⟩
    · have := hwf q b (List.mem_cons_self _ _) hex hv3
      omega
    · rw [hpds] at he'
      cases he'
    · exact ⟨_, hstep⟩

theorem collectPass_mem_src (fc : Cache) (entries : List (Pubkey × Account))
    (pds : List Pubkey) (x : Pubkey)
    (hcol : collectPass fc entries = Except.ok pds) (hx : x ∈ pds) :
    ∃ q b, (q, b) ∈ entries ∧ b.executable = true ∧ b.owner = LOADER_V3 ∧
      36 ≤ b.data.length ∧ programDataPtr b = x ∧ containsKey fc x = false := by
  induction entries generalizing pds with
  | nil =>
    injection hcol with h
    rw [← h] at hx
    cases hx
  | cons e rest ih =>
    obtain ⟨q, b⟩ := e
    rcases collectPass_cons_cases fc q b rest with
      ⟨-, hid⟩ | ⟨-, -, -, herr⟩ | ⟨hex, hv3, hlen, ⟨e', -, herr⟩ | ⟨pds', hrest, hstep⟩⟩
    · rw [hid] at hcol
      obtain ⟨q', b', h1, h2, h3, h4, h5, h6⟩ := ih pds hcol hx
      exact ⟨q', b', List.mem_cons_of_mem _ h1, h2, h3, h4, h5, h6⟩
    · rw [herr] at hcol
      cases hcol
    · rw [herr] at hcol
      cases hcol
    · rw [hstep] at hcol
      injection hcol with h
      by_cases hck : containsKey fc (programDataPtr b) = true
      · rw [if_pos hck] at h
        rw [← h] at hx
        obtain ⟨q', b', h1, h2, h3, h4, h5, h6⟩ := ih pds' hrest hx
        exact ⟨q', b', List.mem_cons_of_mem _ h1, h2, h3, h4, h5, h6⟩
      · rw [if_neg hck] at h
        rw [← h] at hx
        rcases List.mem_cons.mp hx with hxh | hxt
        · subst hxh
          exact ⟨q, b, List.mem_cons_self _ _, hex, hv3, hlen, rfl,
            by simpa using hck⟩
        · obtain ⟨q', b', h1, h2, h3, h4, h5, h6⟩ := ih pds' hrest hxt
          exact ⟨q', b', List.mem_cons_of_mem _ h1, h2, h3, h4, h5, h6⟩

theorem collectPass_complete (fc : Cache) (entries : List (Pubkey × Account))
    (pds : List Pubkey) (p : Pubkey) (b : Account)
    (hcol : collectPass fc entries = Except.ok pds)
    (hmem : (p, b) ∈ entries) (hexec : b.executable = true)
    (hown : b.owner = LOADER_V3)
    (hck : containsKey fc (programDataPtr b) = false) :
    programDataPtr b ∈ pds := by
  induction entries generalizing pds with
  | nil => cases hmem
  | cons e rest ih =>
    obtain ⟨q, b'⟩ := e
    rcases List.mem_cons.mp hmem with heq | htail
    · injection heq with h1 h2
      subst h1
      subst h2
      rcases collectPass_cons_cases fc p b rest with
        ⟨hno, -⟩ | ⟨-, -, -, herr⟩ | ⟨-, -, -, ⟨e', -, herr⟩ | ⟨pds', -, hstep⟩⟩
      · exact absurd ⟨hexec, hown⟩ hno
      · rw [herr] at hcol
        cases hcol
      · rw [herr] at hcol
        cases hcol
      · rw [hstep] at hcol
        injection hcol with h
        rw [hck] at h
        simp only [Bool.false_eq_true, if_false] at h
        rw [← h]
        exact List.mem_cons_self _ _
    · rcases collectPass_cons_cases fc q b' rest with
        ⟨-, hid⟩ | ⟨-, -, -, herr⟩ | ⟨-, -, -, ⟨e', -, herr⟩ | ⟨pds', hrest, hstep⟩⟩
      · rw [hid] at hcol
        exact ih pds hcol htail
      · rw [herr] at hcol
        cases hcol
      · rw [herr] at hcol
        cases hcol
      · rw [hstep] at hcol
        injection hcol with h
        have hin := ih pds' hrest htail
        rw [← h]
        by_cases hck' : containsKey fc (programDataPtr b') = true
        · rw [if_pos hck']
          exact hin
        · rw [if_neg hck']
          exact List.mem_cons_of_mem _ hin

theorem collectPass_err_first_bad (fc : Cache) (entries : List (Pubkey × Account))
    (p : Pubkey) (a : Account)
    (hmem : (p, a) ∈ entries)
    (hexec : a.executable = true) (hown : a.owner = LOADER_V3)
    (hlen : a.data.length < 36)
    (huniq : ∀ q b, (q, b) ∈ entries → b.executable = true →
      b.owner = LOADER_V3 → b.data.length < 36 → q = p) :
    collectPass fc entries =
      Except.error (RpcError.malformedProgram p tooSmallReason) := by
  induction entries with
  | nil => cases hmem
  | cons e rest ih =>
    obtain ⟨q, b⟩ := e
    rcases collectPass_cons_cases fc q b rest with
      ⟨hno, hid⟩ | ⟨hex, hv3, hln, hstep⟩ |
      ⟨hex, hv3, hln, ⟨e', hrest, hstep⟩ | ⟨pds', hrest, hstep⟩⟩
    · have htail : (p, a) ∈ rest := by
        rcases List.mem_cons.mp hmem with heq | h
        · injection heq with h1 h2
          subst h1
          subst h2
          exact absurd ⟨hexec, hown⟩ hno
        · exact h
      rw [hid]
      exact ih htail (fun q' b' h' => huniq q' b' (List.mem_cons_of_mem _ h'))
    · have hqp : q = p := huniq q b (List.mem_cons_self _ _) hex hv3 hln
      subst hqp
      exact hstep
    · have htail : (p, a) ∈ rest := by
        rcases List.mem_cons.mp hmem with heq | h
        · injection heq with h1 h2
          subst h1
          subst h2
          omega
        · exact h
      have := ih htail (fun q' b' h' => huniq q' b' (List.mem_cons_of_mem _ h'))
      rw [hrest] at this
      injection this with h
      rw [hstep, h]
    · have htail : (p, a) ∈ rest := by
        rcases List.mem_cons.mp hmem with heq | h
        · injection heq with h1 h2
          subst h1
          subst h2
          omega
        · exact h
      have := ih htail (fun q' b' h' => huniq q' b' (List.mem_cons_of_mem _ h'))
      rw [hrest] at this
      cases this

theorem collectPass_ok_nil (fc : Cache) (entries : List (Pubkey × Account))
    (h : ∀ q b, (q, b) ∈ entries → b.executable = true → b.owner = LOADER_V3 →
      36 ≤ b.data.length ∧ containsKey fc (programDataPtr b) = true) :
    collectPass fc entries = Except.ok [] := by
  induction entries with
  | nil => rfl
  | cons e rest ih =>
    obtain ⟨q, b⟩ := e
    have ihr := ih (fun q' b' h' => h q' b' (List.mem_cons_of_mem _ h'))
    rcases collectPass_cons_cases fc q b rest with
      ⟨-, hid⟩ | ⟨hex, hv3, hln, -⟩ |
      ⟨hex, hv3, hln, ⟨e', hrest, -⟩ | ⟨pds', hrest, hstep⟩⟩
    · exact hid.trans ihr
    · have := (h q b (List.mem_cons_self _ _) hex hv3).1
      omega
    · rw [ihr] at hrest
      cases hrest
    · rw [ihr] at hrest
      injection hrest with hp
      rw [hstep, ← hp, (h q b (List.mem_cons_self _ _) hex hv3).2, if_pos rfl]

theorem registerPass_skip (v : Bool) (cache : Cache) (q : Pubkey) (b : Account)
    (rest : List (Pubkey × Account)) (hbex : ¬ b.executable = true) :
    registerPass v cache ((q, b) :: rest) = registerPass v cache rest := by
  simp [registerPass, hbex]

theorem registerPass_err_pdTooSmall (v : Bool) (cache : Cache)
    (entries : List (Pubkey × Account)) (p : Pubkey) (a pda : Account)
    (honly : ∀ q b, (q, b) ∈ entries → b.executable = true → q = p ∧ b = a)
    (hmem : (p, a) ∈ entries)
    (hexec : a.executable = true) (hown : a.owner = LOADER_V3)
    (hlen : 36 ≤ a.data.length)
    (hpda : lookupAcct cache (programDataPtr a) = some pda)
    (hsz : pda.data.length ≤ 45) :
    registerPass v cache entries =
      ([], some (RpcError.invalidProgramData p pdTooSmallReason)) := by
  induction entries with
  | nil => cases hmem
  | cons e rest ih =>
    obtain ⟨q, b⟩ := e
    by_cases hbex : b.executable = true
    · obtain ⟨h1, h2⟩ := honly q b (List.mem_cons_self _ _) hbex
      have h1s : p = q := h1.symm
      have h2s : a = b := h2.symm
      subst h1s
      subst h2s
      have hv2 : ¬ (a.owner = LOADER_V2) := by
        rw [hown]
        exact fun h => loaders_distinct h.symm
      have hln : ¬ (a.data.length < 36) := by omega
      have hparse := pubkeyTryFrom_ptr a (by omega)
      have h32 : ¬ (LOADER_V3 = LOADER_V2) := fun h => loaders_distinct h.symm
      simp [registerPass, hexec, hv2, hown, hln, hparse, hpda, hsz, h32]
    · rw [registerPass_skip v cache q b rest hbex]
      have htail : (p, a) ∈ rest := by
        rcases List.mem_cons.mp hmem with heq | h
        · injection heq with h1 h2
          subst h1
          subst h2
          exact absurd hexec hbex
        · exact h
      exact ih (fun q' b' h' => honly q' b' (List.mem_cons_of_mem _ h')) htail

theorem registerPass_ok_extract (cache : Cache)
    (entries : List (Pubkey × Account)) (p : Pubkey) (a pda : Account)
    (honly : ∀ q b, (q, b) ∈ entries → b.executable = true → q = p ∧ b = a)
    (hexec : a.executable = true) (hown : a.owner = LOADER_V3)
    (hlen : 36 ≤ a.data.length)
    (hpda : lookupAcct cache (programDataPtr a) = some pda)
    (hsz : 46 ≤ pda.data.length) :
    (registerPass false cache entries).2 = none ∧
    ((p, a) ∈ entries →
      (p, pda.data.drop 45, a.owner) ∈ (registerPass false cache entries).1) := by
  induction entries with
  | nil => exact ⟨rfl, fun h => absurd h (List.not_mem_nil _)⟩
  | cons e rest ih =>
    obtain ⟨q, b⟩ := e
    have ihr := ih (fun q' b' h' => honly q' b' (List.mem_cons_of_mem _ h'))
    by_cases hbex : b.executable = true
    · obtain ⟨h1, h2⟩ := honly q b (List.mem_cons_self _ _) hbex
      have h1s : p = q := h1.symm
      have h2s : a = b := h2.symm
      subst h1s
      subst h2s
      have hv2 : ¬ (a.owner = LOADER_V2) := by
        rw [hown]
        exact fun h => loaders_distinct h.symm
      have hln : ¬ (a.data.length < 36) := by omega
      have hsz' : ¬ (pda.data.length ≤ 45) := by omega
      have hparse := pubkeyTryFrom_ptr a (by omega)
      have h32 : ¬ (LOADER_V3 = LOADER_V2) := fun h => loaders_distinct h.symm
      have hstep : registerPass false cache ((p, a) :: rest) =
          ((p, pda.data.drop 45, a.owner) :: (registerPass false cache rest).1,
           (registerPass false cache rest).2) := by
        simp [registerPass, hexec, hv2, hown, hln, hparse, hpda, hsz', h32]
      rw [hstep]
      exact ⟨ihr.1, fun _ => List.mem_cons_self _ _⟩
    · rw [registerPass_skip false cache q b rest hbex]
      refine ⟨ihr.1, fun hm => ?_⟩
      have htail : (p, a) ∈ rest := by
        rcases List.mem_cons.mp hm with heq | h
        · injection heq with h1 h2
          subst h1
          subst h2
          exact absurd hexec hbex
        · exact h
      exact ihr.2 htail

/-- C4: a cached executable BPF Loader v3 account with data shorter than
36 bytes makes add_programs fail with MalformedProgram naming that
account (the only such malformed account), and nothing is registered with
the execution registry. -/
theorem claim_C4 (net : Network) (store : Store) (p : Pubkey) (a : Account)
    (hmem : (p, a) ∈ store.cache) (hexec : a.executable = true)
    (hown : a.owner = LOADER_V3) (hlen : a.data.length < 36)
    (huniq : ∀ q b, (q, b) ∈ store.cache → b.executable = true →
      b.owner = LOADER_V3 → b.data.length < 36 → q = p) :
    (addPrograms net store).err =
      some (RpcError.malformedProgram p tooSmallReason) ∧
    (addPrograms net store).registered = [] := by
  have hcol := collectPass_err_first_bad store.cache store.cache p a hmem
    hexec hown hlen huniq
  rw [addPrograms_collect_err net store _ hcol]
  exact ⟨rfl, rfl⟩

/-- Witness for C4: the concrete 3-byte v3 program account at `pC` fails
add_programs with MalformedProgram and registers nothing. -/
theorem claim_C4_witness :
    (addPrograms emptyNet storeC4).err =
      some (RpcError.malformedProgram pC tooSmallReason) ∧
    (addPrograms emptyNet storeC4).registered = [] :=
  claim_C4 emptyNet storeC4 pC shortV3Acct (by decide) (by decide) (by decide)
    (by decide)
    (by
      intro q b hqb hex hov hln
      have heq := List.mem_singleton.mp hqb
      exact congrArg Prod.fst heq)

/-- C5: for an executable Indirect (v3) program whose pointed-to program
data account is cached, add_programs fails with InvalidProgramData naming
the program when the pointed-to data length is at most 45, while a length
of 46 or more reaches bytecode extraction (bytes 45..end are extracted
and, with validation disabled, registered). -/
theorem claim_C5 (net : Network) (store : Store) (p : Pubkey) (a pda : Account)
    (hmem : (p, a) ∈ store.cache) (hexec : a.executable = true)
    (hown : a.owner = LOADER_V3) (hlen : 36 ≤ a.data.length)
    (hpda : lookupAcct store.cache ((a.data.drop 4).take 32) = some pda)
    (honly : ∀ q b, (q, b) ∈ store.cache → b.executable = true →
      q = p ∧ b = a) :
    (pda.data.length ≤ 45 →
      (addPrograms net store).err =
        some (RpcError.invalidProgramData p pdTooSmallReason) ∧
      (addPrograms net store).registered = []) ∧
    (46 ≤ pda.data.length → store.validate_programs = false →
      (addPrograms net store).err = none ∧
      (p, pda.data.drop 45, a.owner) ∈ (addPrograms net store).registered) := by
  have hpda' : lookupAcct store.cache (programDataPtr a) = some pda := hpda
  have hck : containsKey store.cache (programDataPtr a) = true := by
    simp [containsKey, hpda']
  have hcol : collectPass store.cache store.cache = Except.ok [] := by
    apply collectPass_ok_nil
    intro q b hqb hbex hbo
    obtain ⟨h1, h2⟩ := honly q b hqb hbex
    rw [h2]
    exact ⟨hlen, hck⟩
  have hfr : (if ([] : List Pubkey).isEmpty then
      ({ store := store, netCalls := 0, err := none } : FetchResult)
    else fetchAccounts net store []).err = none := rfl
  have haddeq := addPrograms_fetch_ok net store [] hcol hfr
  simp only [List.isEmpty_nil, if_true] at haddeq
  constructor
  · intro hsz
    have hreg := registerPass_err_pdTooSmall store.validate_programs
      store.cache store.cache p a pda honly hmem hexec hown hlen hpda' hsz
    rw [haddeq]
    simp [hreg]
  · intro hsz hv
    have hreg := registerPass_ok_extract store.cache store.cache p a pda
      honly hexec hown hlen hpda' hsz
    rw [haddeq, hv]
    exact ⟨hreg.1, hreg.2 hmem⟩

/-- Witness for C5: with the concrete 40-byte program data account the
run fails with InvalidProgramData and registers nothing; with the
concrete 50-byte one (and validation off) bytes 45..end are extracted and
registered. -/
theorem claim_C5_witness :
    ((addPrograms emptyNet storeC5a).err =
        some (RpcError.invalidProgramData pA pdTooSmallReason) ∧
      (addPrograms emptyNet storeC5a).registered = []) ∧
    ((addPrograms emptyNet storeC1).err = none ∧
      (pA, pdaAcct50.data.drop 45, indirectAcct.owner)
        ∈ (addPrograms emptyNet storeC1).registered) :=
  ⟨(claim_C5 emptyNet storeC5a pA indirectAcct pdaAcct40 (by decide) (by decide)
      (by decide) (by decide) (by decide)
      (by
        intro q b hqb hbex
        rcases List.mem_cons.mp hqb with heq | h
        · injection heq with h1 h2
          exact ⟨h1, h2⟩
        · have heq := List.mem_singleton.mp h
          injection heq with h1 h2
          rw [h2] at hbex
          exact absurd hbex (by decide))).1 (by decide),
   (claim_C5 emptyNet storeC1 pA indirectAcct pdaAcct50 (by decide) (by decide)
      (by decide) (by decide) (by decide)
      (by
        intro q b hqb hbex
        rcases List.mem_cons.mp hqb with heq | h
        · injection heq with h1 h2
          exact ⟨h1, h2⟩
        · have heq := List.mem_singleton.mp h
          injection heq with h1 h2
          rw [h2] at hbex
          exact absurd hbex (by decide))).2 (by decide) rfl⟩

/-- Counterexample to C3 as stated: in strict mode, with the concrete
indirect program at `pA` whose pointer target `pB` the network reports as
not found, add_programs fails with AccountNotFound, not with
InvalidProgramData. -/
theorem claim_C3_counterexample :
    (addPrograms emptyNet storeC3).err = some (RpcError.accountNotFound pB) ∧
    isInvalidProgramDataErr (addPrograms emptyNet storeC3).err = false :=
  ⟨by decide, by decide⟩

/-- C3 (amended): in strict mode, if an Indirect-loader executable
account's Program Data Pointer P refers to an uncached account that the
network reports as not found, add_programs fails with AccountNotFound
naming P (P being the only such unresolved pointer, all indirect program
accounts being well-formed) and never silently skips: nothing is
registered. -/
theorem claim_C3 (net : Network) (store : Store) (p : Pubkey) (a : Account)
    (P : Pubkey)
    (hstrict : store.allow_missing_accounts = false)
    (hmem : (p, a) ∈ store.cache) (hexec : a.executable = true)
    (hown : a.owner = LOADER_V3) (hlen : 36 ≤ a.data.length)
    (hP : (a.data.drop 4).take 32 = P)
    (hmiss : containsKey store.cache P = false)
    (hnet : net P = none)
    (hwf : ∀ q b, (q, b) ∈ store.cache → b.executable = true →
      b.owner = LOADER_V3 → 36 ≤ b.data.length)
    (huniq : ∀ q b, (q, b) ∈ store.cache → b.executable = true →
      b.owner = LOADER_V3 → containsKey store.cache (programDataPtr b) = false →
      net (programDataPtr b) = none → programDataPtr b = P) :
    (addPrograms net store).err = some (RpcError.accountNotFound P) ∧
    (addPrograms net store).registered = [] := by
  obtain ⟨pds, hcol⟩ := collectPass_ok_of_wf store.cache store.cache hwf
  have hPptr : programDataPtr a = P := hP
  have hPin : P ∈ pds := by
    rw [← hPptr]
    exact collectPass_complete store.cache store.cache pds p a hcol hmem hexec
      hown (by rw [hPptr]; exact hmiss)
  have hpdsne : pds.isEmpty = false := isEmpty_false_of_mem _ _ hPin
  have hallmiss : ∀ x ∈ pds, containsKey store.cache x = false := by
    intro x hx
    obtain ⟨q, b, -, -, -, -, -, h6⟩ :=
      collectPass_mem_src store.cache store.cache pds x hcol hx
    exact h6
  have hfilter : pds.filter (fun x => !containsKey store.cache x) = pds := by
    apply List.filter_eq_self.mpr
    intro x hx
    simp [hallmiss x hx]
  have hall : ∀ x, (x, (none : Option Account)) ∈
      pds.map (fun y => (y, net y)) → x = P := by
    intro x hx
    obtain ⟨y, hy, hyx⟩ := List.mem_map.mp hx
    have h1 : y = x := congrArg Prod.fst hyx
    have h2 : net y = none := by simpa using congrArg Prod.snd hyx
    subst h1
    obtain ⟨q, b, hb1, hb2, hb3, -, hb5, hb6⟩ :=
      collectPass_mem_src store.cache store.cache pds y hcol hy
    rw [← hb5]
    exact huniq q b hb1 hb2 hb3 (by rw [hb5]; exact hb6) (by rw [hb5]; exact h2)
  have hmem' : (P, (none : Option Account)) ∈ pds.map (fun y => (y, net y)) :=
    List.mem_map.mpr ⟨P, hPin, by rw [hnet]⟩
  have hferr : (fetchAccounts net store pds).err =
      some (RpcError.accountNotFound P) := by
    have hmne : (pds.filter (fun x => !containsKey store.cache x)).isEmpty
        = false := by
      rw [hfilter]
      exact hpdsne
    simp only [fetchAccounts, hmne, if_false, Bool.false_eq_true]
    rw [hfilter, hstrict]
    exact processFetched_strict_first store.cache _ P hall hmem'
  have hnotemp : ¬ (pds.isEmpty = true) := by
    rw [hpdsne]
    exact Bool.false_ne_true
  have hfrerr : (if pds.isEmpty then
      ({ store := store, netCalls := 0, err := none } : FetchResult)
    else fetchAccounts net store pds).err =
      some (RpcError.accountNotFound P) := by
    rw [if_neg hnotemp]
    exact hferr
  rw [addPrograms_fetch_err net store pds _ hcol hfrerr]
  exact ⟨rfl, rfl⟩

/-- Witness for C3 (amended): the concrete strict-mode scenario fails
with AccountNotFound naming the pointer target `pB` and registers
nothing. -/
theorem claim_C3_witness :
    (addPrograms emptyNet storeC3).err = some (RpcError.accountNotFound pB) ∧
    (addPrograms emptyNet storeC3).registered = [] :=
  claim_C3 emptyNet storeC3 pA indirectAcct pB rfl (by decide) (by decide)
    (by decide) (by decide) (by decide) (by decide) rfl
    (by
      intro q b hqb hex hov
      have heq := List.mem_singleton.mp hqb
      have hb : b = indirectAcct := congrArg Prod.snd heq
      rw [hb]
      decide)
    (by
      intro q b hqb hex hov hck hnet
      have heq := List.mem_singleton.mp hqb
      have hb : b = indirectAcct := congrArg Prod.snd heq
      rw [hb]
      decide)

/-! Validator, fixture codec and pointer-parse claims. -/

/-- C8: validate_elf succeeds exactly when the buffer has at least 52
bytes, starts with the 4-byte ELF magic 0x7F E L F, and has class byte 1
or 2 at offset 4; a 60-byte well-formed buffer passes, a 10-byte buffer
fails, and a 52-byte buffer with wrong magic fails. -/
theorem claim_C8 (data : List Nat) :
    (validateElf data = Except.ok () ↔
      (52 ≤ data.length ∧ data[0]? = some 0x7F ∧ data[1]? = some 0x45 ∧
        data[2]? = some 0x4C ∧ data[3]? = some 0x46 ∧
        (data[4]? = some 1 ∨ data[4]? = some 2))) ∧
    validateElf goodElf60 = Except.ok () ∧
    validateElf (List.replicate 10 0) ≠ Except.ok () ∧
    validateElf (List.replicate 52 0) ≠ Except.ok () := by
  refine ⟨?_, rfl, fun h => Except.noConfusion h, fun h => Except.noConfusion h⟩
  rcases data with - | ⟨d0, - | ⟨d1, - | ⟨d2, - | ⟨d3, - | ⟨d4, rest⟩⟩⟩⟩⟩
  · simp [validateElf]
  · simp [validateElf]
  · simp [validateElf]
  · simp [validateElf]
  · simp [validateElf]
  · simp only [validateElf, List.length_cons, ELF_MAGIC]
    split_ifs with h1 h2 h3
    · exact iff_of_false (by simp) (fun hr => absurd hr.1 (by omega))
    · refine iff_of_false (by simp) (fun hr => ?_)
      obtain ⟨-, e0, e1, e2, e3, -⟩ := hr
      simp only [List.getElem?_cons_zero, List.getElem?_cons_succ,
        Option.some.injEq] at e0 e1 e2 e3
      subst e0
      subst e1
      subst e2
      subst e3
      exact h2 rfl
    · refine iff_of_false (by simp) (fun hr => ?_)
      obtain ⟨-, -, -, -, -, e4⟩ := hr
      simp only [List.getElem?_cons_succ, List.getElem?_cons_zero,
        Option.some.injEq] at e4
      rcases e4 with e | e
      · exact h3.1 e
      · exact h3.2 e
    · have ht : [d0, d1, d2, d3] = [0x7F, 0x45, 0x4C, 0x46] := not_not.mp h2
      simp only [List.cons.injEq, and_true] at ht
      obtain ⟨e0, e1, e2, e3⟩ := ht
      refine iff_of_true rfl ⟨by omega, ?_, ?_, ?_, ?_, ?_⟩
      · simp [e0]
      · simp [e1]
      · simp [e2]
      · simp [e3]
      · have hd4 : (d0 :: d1 :: d2 :: d3 :: d4 :: rest).getD 4 0 = d4 := rfl
        rw [hd4] at h3
        by_cases hc1 : d4 = 1
        · exact Or.inl (by simp [hc1])
        · by_cases hc2 : d4 = 2
          · exact Or.inr (by simp [hc2])
          · exact absurd ⟨hc1, hc2⟩ h3

theorem decodeData_encodeData (l : List Nat) : decodeData (encodeData l) = l := by
  induction l with
  | nil => rfl
  | cons b rest ih =>
    simp only [encodeData, decodeData, ih]
    congr 1
    omega

theorem loadEntries_save (cache : Cache)
    (hvalid : ∀ e ∈ cache, e.1.length = 32 ∧ e.2.owner.length = 32) :
    loadEntries (cache.map (fun e =>
      (addrToText e.1,
       { lamports := e.2.lamports, data := encodeData e.2.data,
         owner := addrToText e.2.owner, executable := e.2.executable,
         rent_epoch := e.2.rent_epoch }))) = Except.ok cache := by
  induction cache with
  | nil => rfl
  | cons e rest ih =>
    obtain ⟨p, acct⟩ := e
    have hp : p.length = 32 := (hvalid (p, acct) (List.mem_cons_self _ _)).1
    have ho : acct.owner.length = 32 :=
      (hvalid (p, acct) (List.mem_cons_self _ _)).2
    have ihr := ih (fun e' h' => hvalid e' (List.mem_cons_of_mem _ h'))
    have htp : textToAddr (addrToText p) = some p := by
      simp [textToAddr, addrToText, hp]
    have hto : textToAddr (addrToText acct.owner) = some acct.owner := by
      simp [textToAddr, addrToText, ho]
    simp only [List.map_cons, loadEntries, htp, hto, ihr, decodeData_encodeData]

/-- C9: the fixture codec round-trips every cache whose addresses and
owners are valid 32-byte identifiers, reproducing balance, data, owner,
executable flag and epoch exactly, and load rejects any fixture whose
version differs from 1 with an InvalidFixture error naming the
unsupported version. -/
theorem claim_C9 (cache : Cache) (fx : Fixture) :
    ((∀ e ∈ cache, e.1.length = 32 ∧ e.2.owner.length = 32) →
      fixtureLoad (fixtureSave cache) = Except.ok cache) ∧
    (fx.version ≠ 1 →
      fixtureLoad fx = Except.error (FixtureError.unsupportedVersion fx.version)) := by
  constructor
  · intro hvalid
    simp only [fixtureLoad, fixtureSave]
    rw [if_neg (by simp)]
    exact loadEntries_save cache hvalid
  · intro hv
    simp only [fixtureLoad, if_pos hv]

/-- Witness for C9: the concrete one-record cache round-trips exactly,
and the concrete version-2 fixture is rejected. -/
theorem claim_C9_witness :
    fixtureLoad (fixtureSave cacheC9) = Except.ok cacheC9 ∧
    fixtureLoad fxBad = Except.error (FixtureError.unsupportedVersion 2) :=
  ⟨(claim_C9 cacheC9 fxBad).1 (by decide),
   (claim_C9 cacheC9 fxBad).2 (by decide)⟩

theorem collectPass_no_badPtr (fc : Cache) (entries : List (Pubkey × Account))
    (p : Pubkey) :
    collectPass fc entries ≠
      Except.error (RpcError.malformedProgram p badPtrReason) := by
  induction entries with
  | nil => exact fun h => Except.noConfusion h
  | cons e rest ih =>
    obtain ⟨q, b⟩ := e
    rcases collectPass_cons_cases fc q b rest with
      ⟨-, hid⟩ | ⟨-, -, -, hstep⟩ |
      ⟨-, -, -, ⟨e', hrest, hstep⟩ | ⟨pds', -, hstep⟩⟩
    · rw [hid]
      exact ih
    · rw [hstep]
      intro h
      injection h with h'
      injection h' with h1 h2
      exact absurd h2 (by decide)
    · rw [hstep]
      intro h
      injection h with h'
      rw [h'] at hrest
      exact ih hrest
    · rw [hstep]
      exact fun h => Except.noConfusion h

theorem registerPass_no_badPtr (v : Bool) (fc : Cache)
    (entries : List (Pubkey × Account)) (p : Pubkey) :
    (registerPass v fc entries).2 ≠
      some (RpcError.malformedProgram p badPtrReason) := by
  induction entries with
  | nil => exact fun h => Option.noConfusion h
  | cons e rest ih =>
    obtain ⟨q, b⟩ := e
    rcases registerPass_cons_cases v fc q b rest with
      ⟨e', hne, hstep⟩ | ⟨-, hid⟩ | ⟨-, -, hcons⟩ | ⟨-, -, pda, -, -, hcons⟩
    · rw [hstep]
      intro h
      injection h with h'
      exact hne p h'
    · rw [hid]
      exact ih
    · rw [hcons]
      exact ih
    · rw [hcons]
      exact ih

/-- C10: for any executable-account data of at least 36 bytes, converting
bytes 4..36 into an Address always succeeds (any 32-byte slice is a valid
Address), so neither pass of add_programs can ever produce the
MalformedProgram error for an unparsable program-data pubkey. -/
theorem claim_C10 (data : List Nat) (fc : Cache)
    (entries : List (Pubkey × Account)) (v : Bool) (p : Pubkey) :
    (36 ≤ data.length →
      pubkeyTryFrom ((data.drop 4).take 32) = some ((data.drop 4).take 32)) ∧
    collectPass fc entries ≠
      Except.error (RpcError.malformedProgram p badPtrReason) ∧
    (registerPass v fc entries).2 ≠
      some (RpcError.malformedProgram p badPtrReason) := by
  refine ⟨?_, collectPass_no_badPtr fc entries p,
    registerPass_no_badPtr v fc entries p⟩
  intro h
  have hl : ((data.drop 4).take 32).length = 32 := by
    simp only [List.length_take, List.length_drop]
    omega
  simp [pubkeyTryFrom, hl]

/-- Witness for C10: the conversion succeeds on the concrete 36-byte
indirect program account data. -/
theorem claim_C10_witness :
    pubkeyTryFrom ((indirectAcct.data.drop 4).take 32) =
      some ((indirectAcct.data.drop 4).take 32) :=
  (claim_C10 indirectAcct.data [] [] false pA).1 (by decide)

end MolluskOnDemand
